import Mathlib

/-!
Shallow embedding of the i3_tree_manager core (src/main.rs, src/event.rs,
src/ui.rs): the tree snapshot model, the selection state machine, the
recursive tree-flattening renderer, and a model of the event-aggregation
channel, together with theorems settling the specification claims.

Machine integers: the Rust ids are i64; all arithmetic on them here is mere
copying and equality testing, so they are embedded as Int.  IPC calls
(get_tree, run_command) are embedded by passing the response tree as an
explicit argument and returning the command string that would be sent.
-/

namespace I3TM

/-! ## Tree snapshot model (i3ipc reply::Node, fields used by this repo) -/

/-- Embeds i3ipc NodeType (Debug-formatted by ui.rs); variants as in i3ipc. -/
inductive NodeType where
  | Root
  | Output
  | Con
  | FloatingCon
  | Workspace
  | DockArea
deriving DecidableEq, Repr

/-- Embeds i3ipc NodeLayout (Debug-formatted by ui.rs). -/
inductive NodeLayout where
  | SplitH
  | SplitV
  | Stacked
  | Tabbed
  | DockArea
  | Output
deriving DecidableEq, Repr

/-- Rust Debug formatting of NodeType, as produced by format of ui.rs. -/
def NodeType.debugStr : NodeType → String
  | .Root => "Root"
  | .Output => "Output"
  | .Con => "Con"
  | .FloatingCon => "FloatingCon"
  | .Workspace => "Workspace"
  | .DockArea => "DockArea"

/-- Rust Debug formatting of NodeLayout, as produced by format of ui.rs. -/
def NodeLayout.debugStr : NodeLayout → String
  | .SplitH => "SplitH"
  | .SplitV => "SplitV"
  | .Stacked => "Stacked"
  | .Tabbed => "Tabbed"
  | .DockArea => "DockArea"
  | .Output => "Output"

/-- Embeds i3ipc reply::Node restricted to the fields this repository reads:
id, name, nodetype, layout, focused, urgent, nodes. -/
inductive Node where
  | mk (id : Int) (name : Option String) (nodetype : NodeType)
      (layout : NodeLayout) (focused : Bool) (urgent : Bool)
      (nodes : List Node)

def Node.id : Node → Int
  | .mk i _ _ _ _ _ _ => i

def Node.name : Node → Option String
  | .mk _ n _ _ _ _ _ => n

def Node.nodetype : Node → NodeType
  | .mk _ _ t _ _ _ _ => t

def Node.layout : Node → NodeLayout
  | .mk _ _ _ l _ _ _ => l

def Node.focused : Node → Bool
  | .mk _ _ _ _ f _ _ => f

def Node.urgent : Node → Bool
  | .mk _ _ _ _ _ u _ => u

def Node.nodes : Node → List Node
  | .mk _ _ _ _ _ _ ns => ns

mutual

/-- Embeds main.rs collect_ids: the node's own id first, then the ids of the
children's subtrees left to right (Rust: vec of id extended with the
flat_map of collect_ids over node.nodes). -/
def collect_ids : Node → List Int
  | .mk i _ _ _ _ _ ns => i :: collect_ids_list ns

/-- Concatenation of collect_ids over a child list, embedding the flat_map
iteration of main.rs collect_ids. -/
def collect_ids_list : List Node → List Int
  | [] => []
  | n :: ns => collect_ids n ++ collect_ids_list ns

end

mutual

/-- Number of nodes of a tree (spec vocabulary: the node count of T). -/
def Node.size : Node → Nat
  | .mk _ _ _ _ _ _ ns => 1 + Node.sizeList ns

/-- Total node count of a list of trees. -/
def Node.sizeList : List Node → Nat
  | [] => 0
  | n :: ns => Node.size n + Node.sizeList ns

end

mutual

/-- Number of nodes of the tree carrying a given id (spec vocabulary: how
often an id is present in the tree). -/
def Node.idCount (i : Int) : Node → Nat
  | .mk j _ _ _ _ _ ns => (if j = i then 1 else 0) + Node.idCountList i ns

/-- Total multiplicity of an id over a list of trees. -/
def Node.idCountList (i : Int) : List Node → Nat
  | [] => 0
  | n :: ns => Node.idCount i n + Node.idCountList i ns

end

/-- Pairwise distinctness of the ids of a tree: no id labels two nodes. -/
def Node.distinctIds (t : Node) : Prop :=
  ∀ i : Int, t.idCount i ≤ 1

/-! ## Selection state machine (src/main.rs) -/

/-- Embeds main.rs StateMode: Move(NodeId) or None. -/
inductive StateMode where
  | Move (nodeId : Int)
  | None
deriving DecidableEq, Repr

/-- Embeds main.rs State without the I3Connection handle: the IPC calls are
modelled by explicit tree arguments and returned command strings. -/
structure State where
  node_tree : Node
  selected : Int
  node_ids : List Int
  mode : StateMode

/-- Embeds State::new, with the get_tree response passed explicitly: selects
the root id, stores the pre-order id list and the tree, mode None. -/
def State.new (node : Node) : State :=
  { selected := node.id
    node_ids := collect_ids node
    node_tree := node
    mode := StateMode.None }

/-- Embeds State::update_tree, with the get_tree response passed explicitly:
replaces node_ids and node_tree; selected and mode are untouched. -/
def State.update_tree (s : State) (node : Node) : State :=
  { s with node_ids := collect_ids node, node_tree := node }

/-- Embeds State::select_next.  The Rust iterator cursor is positioned just
after the first element equal to selected (Iterator::position consumes
through the first match; a failed search consumes everything), so
cursor.next() is the element at the first matching index plus one, and
None either when selected is absent or when the match was the last
element; on None the state is unchanged. -/
def State.select_next (s : State) : State :=
  match s.node_ids.findIdx? (fun id => id = s.selected) with
  | some i =>
    match s.node_ids.get? (i + 1) with
    | some sel => { s with selected := sel }
    | none => s
  | none => s

/-- Embeds Iterator::rposition of the Rust standard library on a list: the
index (from the front) of the last element satisfying the predicate. -/
def rposition (l : List Int) (p : Int → Bool) : Option Nat :=
  match l.reverse.findIdx? p with
  | some i => some (l.length - 1 - i)
  | none => none

/-- Embeds State::select_previous: rposition of selected; absent or at index
0 is a no-op, otherwise selected becomes the element one index before. -/
def State.select_previous (s : State) : State :=
  match rposition s.node_ids (fun id => id = s.selected) with
  | some current =>
    if current = 0 then s
    else
      match s.node_ids.get? (current - 1) with
      | some sel => { s with selected := sel }
      | none => s
  | none => s

/-- Embeds State::move_mode: None becomes Move(selected); Move(_) becomes
None; nothing else changes. -/
def State.move_mode (s : State) : State :=
  match s.mode with
  | StateMode.None => { s with mode := StateMode.Move s.selected }
  | StateMode.Move _ => { s with mode := StateMode.None }

/-- Embeds State::move_container: the command string sent over the message
port, scoped by con_id to the currently selected id. -/
def State.move_container (s : State) (direction : String) : String :=
  "[con_id=\"" ++ toString s.selected ++ "\"] move " ++ direction

/-- Embeds State::split_toggle: the command string sent over the message
port, scoped by con_id to the currently selected id. -/
def State.split_toggle (s : State) : String :=
  "[con_id=\"" ++ toString s.selected ++ "\"] split toggle"

/-! ## Tree flattening renderer (src/ui.rs) -/

/-- Embeds the static glyph BRANCH_INDENT of ui.rs. -/
def BRANCH_INDENT : String := "│  "

/-- Embeds the static glyph LEAF_INDENT of ui.rs. -/
def LEAF_INDENT : String := "   "

/-- Embeds the static glyph BRANCH_GLYPH of ui.rs. -/
def BRANCH_GLYPH : String := "├──"

/-- Embeds the static glyph LEAF_GLYPH of ui.rs. -/
def LEAF_GLYPH : String := "└──"

/-- Embeds the static glyph ROOT_GLYPH of ui.rs. -/
def ROOT_GLYPH : String := ""

/-- Embeds the static glyph EMPTY_INDENT of ui.rs. -/
def EMPTY_INDENT : String := ""

/-- Embeds ui.rs TreeLevel: Root, Branch or Leaf traversal position. -/
inductive TreeLevel where
  | Root
  | Branch
  | Leaf
deriving DecidableEq, Repr

/-- Embeds ui.rs Context: the traversal context threaded through
node_into_ui_list. -/
structure Context where
  ancestors_indent : String
  level : TreeLevel
  selected_id : Option Int
deriving DecidableEq, Repr

/-- Embeds the Default impl of Context: empty indent, Root level, no
selection. -/
def Context.default : Context :=
  { ancestors_indent := EMPTY_INDENT
    level := TreeLevel.Root
    selected_id := Option.none }

/-- Embeds Context::descendant_indent: ancestors_indent followed by the fill
of the current level. -/
def Context.descendant_indent (c : Context) : String :=
  let fill :=
    match c.level with
    | TreeLevel.Root => EMPTY_INDENT
    | TreeLevel.Branch => BRANCH_INDENT
    | TreeLevel.Leaf => LEAF_INDENT
  c.ancestors_indent ++ fill

/-- Embeds Context::glyph: the row glyph of the current level. -/
def Context.glyph (c : Context) : String :=
  match c.level with
  | TreeLevel.Root => ROOT_GLYPH
  | TreeLevel.Branch => BRANCH_GLYPH
  | TreeLevel.Leaf => LEAF_GLYPH

/-- Embeds Context::full_entry: ancestors_indent followed by the glyph. -/
def Context.full_entry (c : Context) : String :=
  c.ancestors_indent ++ c.glyph

/-- Embeds Context::to_leaf: indent grows by the current fill, level Leaf. -/
def Context.to_leaf (c : Context) : Context :=
  { ancestors_indent := c.descendant_indent
    level := TreeLevel.Leaf
    selected_id := c.selected_id }

/-- Embeds Context::to_branch: indent grows by the current fill, level
Branch. -/
def Context.to_branch (c : Context) : Context :=
  { ancestors_indent := c.descendant_indent
    level := TreeLevel.Branch
    selected_id := c.selected_id }

/-- Embeds ui.rs UiNode: the per-row payload. -/
structure UiNode where
  con_id : Int
  name : String
  indentation : String
  node_type : String
  layout : String
  focused : Bool
  urgent : Bool
deriving DecidableEq, Repr

/-- Embeds UiNode::from: copies the node fields, Debug-formats nodetype and
layout, defaults an absent name to the empty string. -/
def UiNode.from (node : Node) (indentation : String) : UiNode :=
  { con_id := node.id
    name := node.name.getD ""
    layout := node.layout.debugStr
    node_type := node.nodetype.debugStr
    focused := node.focused
    urgent := node.urgent
    indentation := indentation }

/-- Embeds the two tui background colors used by ui.rs. -/
inductive UiColor where
  | LightMagenta
  | LightGreen
deriving DecidableEq, Repr

/-- Embeds the part of tui Style that ui.rs sets: optional background color
and the REVERSED modifier. -/
structure UiStyle where
  bg : Option UiColor
  reversed : Bool
deriving DecidableEq, Repr

/-- Embeds tui Style::default(): no background, no modifier. -/
def UiStyle.default : UiStyle := { bg := Option.none, reversed := false }

/-- Embeds tui ListItem as used by ui.rs: a UiNode payload and the style
last set on the item (ListItem::style replaces the style wholesale). -/
structure ListItem where
  content : UiNode
  style : UiStyle
deriving DecidableEq, Repr

/-- Embeds the row construction at the head of node_into_ui_list: the item
is built from the node with the context's full_entry as indentation; then
an urgent node restyles it LightMagenta, a focused node restyles it
LightGreen, and a selected node restyles it REVERSED — each restyling
replaces the previous style entirely, as ListItem::style does. -/
def mkListItem (node : Node) (context : Context) : ListItem :=
  let root : ListItem :=
    { content := UiNode.from node context.full_entry, style := UiStyle.default }
  let root :=
    if node.urgent then
      { root with style := { bg := some UiColor.LightMagenta, reversed := false } }
    else root
  let root :=
    if node.focused then
      { root with style := { bg := some UiColor.LightGreen, reversed := false } }
    else root
  let root :=
    if some node.id = context.selected_id then
      { root with style := { bg := Option.none, reversed := true } }
    else root
  root

mutual

/-- Embeds ui.rs node_into_ui_list: the node's own row followed by the rows
of its children; all children but the last are visited in Branch position,
the last child in Leaf position (Rust: branches.pop() splits off the last
child, the fold appends the Branch recursions, then the Leaf recursion). -/
def node_into_ui_list : Node → Context → List ListItem
  | n@(.mk _ _ _ _ _ _ ns), context =>
    mkListItem n context :: children_into_ui_list ns context

/-- Embeds the child iteration of node_into_ui_list: every child before the
last recurses with context.to_branch, the last child with context.to_leaf,
and the resulting row lists are appended in child order. -/
def children_into_ui_list : List Node → Context → List ListItem
  | [], _ => []
  | [last], context => node_into_ui_list last context.to_leaf
  | n :: next :: rest, context =>
    node_into_ui_list n context.to_branch ++
      children_into_ui_list (next :: rest) context

end

/-- Embeds the From impl turning a UiNode into its display Text:
indentation, node type in square brackets, layout in braces, name. -/
def UiNode.displayText (ui_node : UiNode) : String :=
  ui_node.indentation ++ "[" ++ ui_node.node_type ++ "] \x7b" ++
    ui_node.layout ++ "\x7d - " ++ ui_node.name

/-! ## Event aggregation (src/event.rs) -/

/-- Embeds the termion Key variants this repository matches on, with Other
standing for every remaining variant. -/
inductive Key where
  | Char (c : Char)
  | Up
  | Down
  | Left
  | Right
  | Esc
  | Other (code : Nat)
deriving DecidableEq, Repr

/-- Embeds event.rs Event with the key type instantiated as in the repo:
Input(Key), Tick, I3. -/
inductive Event where
  | Input (k : Key)
  | Tick
  | I3
deriving DecidableEq, Repr

/-- Embeds event.rs Config: the exit key and the tick rate (milliseconds). -/
structure Config where
  exit_key : Key
  tick_rate : Nat
deriving DecidableEq, Repr

/-- Embeds the Default impl of Config: exit key q, tick rate 250ms. -/
def Config.default : Config :=
  { exit_key := Key.Char 'q', tick_rate := 250 }

/-- Result of running the keyboard producer on a finite stdin: the Input
events pushed into the channel, in push order, and the eprintln log. -/
structure ProducerRun where
  sent : List Key
  log : List String
deriving DecidableEq, Repr

/-- Embeds the keyboard-producer closure of Events::with_config on a finite
stdin, the channel's open/closed status held fixed for the run.  Each read
is Ok a key or Err an I/O error.  An Err read is skipped by the
if-let-Ok, with no logging, and the loop continues.  An Ok key is sent;
a failed send (closed channel) logs the error and returns; after a
successful send, if ignore_exit_key is unset and the key equals the
configured exit key, the closure returns, reading nothing further. -/
def input_producer (channelOpen : Bool) (ignore_exit_key : Bool)
    (config : Config) : List (Except String Key) → ProducerRun
  | [] => { sent := [], log := [] }
  | Except.error _ :: rest => input_producer channelOpen ignore_exit_key config rest
  | Except.ok key :: rest =>
    if channelOpen then
      if !ignore_exit_key && key = config.exit_key then
        { sent := [key], log := [] }
      else
        let r := input_producer channelOpen ignore_exit_key config rest
        { r with sent := key :: r.sent }
    else
      { sent := [], log := ["sending on a closed channel"] }

/-- Embeds the tick-producer closure: while the channel stays open it pushes
one Tick per period; over a window of m periods it has pushed m Ticks. -/
def tick_producer (m : Nat) : List Event :=
  List.replicate m Event.Tick

/-- Embeds the i3-notification producer closure: one I3 event pushed per
notification received from the subscribed listener. -/
def i3_producer (k : Nat) : List Event :=
  List.replicate k Event.I3

/-- Embeds the std::sync::mpsc channel shared by the three producers: an
ordered queue, sends enqueue at the back. -/
structure Channel where
  queue : List Event
deriving DecidableEq, Repr

/-- Embeds mpsc Sender::send on an open channel: enqueue at the back. -/
def Channel.send (c : Channel) (e : Event) : Channel :=
  { queue := c.queue ++ [e] }

/-- Embeds Events::next, i.e. Receiver::recv on a nonempty queue: dequeue
from the front (none models blocking on an empty queue). -/
def Channel.next : Channel → Option (Event × Channel)
  | { queue := [] } => Option.none
  | { queue := e :: rest } => some (e, { queue := rest })

/-- Pushes a whole arrival sequence through the channel in order. -/
def Channel.sendAll (c : Channel) : List Event → Channel
  | [] => c
  | e :: rest => (c.send e).sendAll rest

/-- Drains the channel by repeated Events::next calls until it would
block, returning the received events in delivery order. -/
def Channel.recvAll : Channel → List Event
  | { queue := [] } => []
  | { queue := e :: rest } => e :: Channel.recvAll { queue := rest }

/-- Interleaving of two sequences: the arrival orders a first-come
first-served multi-producer queue can observe from two producers, each
producer's own push order preserved. -/
inductive Interleave : List Event → List Event → List Event → Prop where
  | nil : Interleave [] [] []
  | left {a as bs cs} : Interleave as bs cs → Interleave (a :: as) bs (a :: cs)
  | right {b as bs cs} : Interleave as bs cs → Interleave as (b :: bs) (b :: cs)

/-- Arrival orders observable from three producers: some interleaving of
the first two, interleaved with the third. -/
def Interleave3 (as bs cs q : List Event) : Prop :=
  ∃ ab, Interleave as bs ab ∧ Interleave ab cs q

/-! ## Control loop (src/main.rs main) -/

/-- Events as seen by the control loop, an I3 notification carrying the tree
that the get_tree re-query returns. -/
inductive LoopEvent where
  | Input (k : Key)
  | Tick
  | I3 (tree : Node)

/-- Embeds the Browsing-mode (StateMode::None) arm of the main loop's key
match, its arms tested in order: q breaks the loop (none), Down and Up
move the selection, m toggles move mode, s sends split toggle, every other
key is ignored. -/
def dispatchInputNone (s : State) (input : Key) : Option (State × List String) :=
  if input = Key.Char 'q' then Option.none
  else if input = Key.Down then some (s.select_next, [])
  else if input = Key.Up then some (s.select_previous, [])
  else if input = Key.Char 'm' then some (s.move_mode, [])
  else if input = Key.Char 's' then some (s, [s.split_toggle])
  else some (s, [])

/-- Embeds the Move-mode arm of the main loop's key match, its arms tested
in order: q breaks the loop (none), Esc leaves move mode, the arrow keys
send a move command, s sends split toggle, every other key is ignored. -/
def dispatchInputMove (s : State) (input : Key) : Option (State × List String) :=
  if input = Key.Char 'q' then Option.none
  else if input = Key.Esc then some (s.move_mode, [])
  else if input = Key.Down then some (s, [s.move_container "down"])
  else if input = Key.Up then some (s, [s.move_container "up"])
  else if input = Key.Left then some (s, [s.move_container "left"])
  else if input = Key.Right then some (s, [s.move_container "right"])
  else if input = Key.Char 's' then some (s, [s.split_toggle])
  else some (s, [])

/-- Embeds one dispatch of the main loop: none models the break on the quit
key; otherwise the successor state together with the commands sent to the
message port during the step.  A key press is dispatched through the arm
matching the current mode; Tick does nothing; an I3 notification
re-queries the tree and updates the state. -/
def dispatch (s : State) : LoopEvent → Option (State × List String)
  | LoopEvent.Input input =>
    match s.mode with
    | StateMode.None => dispatchInputNone s input
    | StateMode.Move _ => dispatchInputMove s input
  | LoopEvent.Tick => some (s, [])
  | LoopEvent.I3 tree => some (s.update_tree tree, [])

/-- Runs the control loop over a finite event sequence from a given state,
stopping at a quit key, returning the final state and all commands sent. -/
def run (s : State) : List LoopEvent → State × List String
  | [] => (s, [])
  | e :: rest =>
    match dispatch s e with
    | Option.none => (s, [])
    | some (s1, cmds) =>
      let r := run s1 rest
      (r.1, cmds ++ r.2)

/-! ## Remaining definitions: renderer entry, exit-key toggles, spec-side
vocabulary and sample trees -/

/-- Embeds the flattening call inside Renderer::render: the held tree is
flattened with a default context carrying the selected id. -/
def render_rows (s : State) : List ListItem :=
  node_into_ui_list s.node_tree
    { Context.default with selected_id := some s.selected }

/-- Embeds Events::disable_exit_key: the shared flag becomes true. -/
def disable_exit_key (_ignore_exit_key : Bool) : Bool := true

/-- Embeds Events::enable_exit_key: the shared flag becomes false. -/
def enable_exit_key (_ignore_exit_key : Bool) : Bool := false

/-- Longest initial segment up to and including the first element
satisfying the predicate (spec vocabulary for the exit-key cut-off). -/
def takeThrough {α : Type _} (p : α → Bool) : List α → List α
  | [] => []
  | a :: l => if p a then [a] else a :: takeThrough p l

/-- Spec vocabulary for C10: whenever the mode records a move origin, that
origin is the currently selected id. -/
def modeInv (s : State) : Prop :=
  ∀ o, s.mode = StateMode.Move o → o = s.selected

/-- Sample childless node, used by the concrete witnesses. -/
def leafNode (i : Int) : Node :=
  Node.mk i Option.none NodeType.Con NodeLayout.SplitH false false []

/-- Sample tree with two nodes sharing the id 5: ids in pre-order are
5, 3, 5. -/
def dupTree : Node :=
  Node.mk 5 Option.none NodeType.Root NodeLayout.SplitH false false
    [leafNode 3, leafNode 5]

/-- Sample tree whose root has three children: ids in pre-order are
1, 2, 3, 4. -/
def sampleTree : Node :=
  Node.mk 1 Option.none NodeType.Root NodeLayout.SplitH false false
    [leafNode 2, leafNode 3, leafNode 4]

/-! ## Helper lemmas -/


/-- Characterisation of findIdx?: the first index satisfying the predicate. -/
theorem findIdx?_eq_some_of {α : Type _} (p : α → Bool) (l : List α) (i : Nat)
    (hi : i < l.length) (hp : p (l.get ⟨i, hi⟩) = true)
    (hmin : ∀ j (hj : j < l.length), j < i → p (l.get ⟨j, hj⟩) = false) :
    l.findIdx? p = some i := by
  have hfi : l.findIdx p = i := by
    rw [List.findIdx_eq hi]
    exact ⟨hp, fun j hji => hmin j (Nat.lt_trans hji hi) hji⟩
  have h2 := List.findIdx_eq_findIdx? p l
  cases h : l.findIdx? p with
  | none =>
    rw [h] at h2
    simp only at h2
    rw [hfi] at h2
    omega
  | some j =>
    rw [h] at h2
    simp only at h2
    rw [hfi] at h2
    exact congrArg some h2.symm

/-- Characterisation of the embedded rposition: the last index satisfying
the predicate. -/
theorem rposition_eq_some_of (l : List Int) (p : Int → Bool) (j : Nat)
    (hj : j < l.length) (hp : p (l.get ⟨j, hj⟩) = true)
    (hmax : ∀ k (hk : k < l.length), j < k → p (l.get ⟨k, hk⟩) = false) :
    rposition l p = some j := by
  have hlen : l.reverse.length = l.length := l.length_reverse
  have hidx : l.length - 1 - j < l.reverse.length := by omega
  have hrev : l.reverse.findIdx? p = some (l.length - 1 - j) := by
    apply findIdx?_eq_some_of p l.reverse (l.length - 1 - j) hidx
    · show p (l.reverse[l.length - 1 - j]) = true
      rw [List.getElem_reverse]
      have : l.length - 1 - (l.length - 1 - j) = j := by omega
      simp only [this]
      exact hp
    · intro m hm hmlt
      show p (l.reverse[m]) = false
      rw [List.getElem_reverse]
      exact hmax (l.length - 1 - m) (by omega) (by omega)
  have harith : l.length - 1 - (l.length - 1 - j) = j := by omega
  simp only [rposition, hrev, harith]

/-! ## Claim C8: move mode toggling -/

/-- C8: move_mode sends a Browsing-mode (None) state to Move(selected) and
any Move-mode state to None, changing no other field, and applying it twice
to a Browsing-mode state gives back exactly that state. -/
theorem move_mode_toggle (s : State) :
    (s.mode = StateMode.None →
      s.move_mode = { s with mode := StateMode.Move s.selected } ∧
        s.move_mode.move_mode = s) ∧
    ∀ origin, s.mode = StateMode.Move origin →
      s.move_mode = { s with mode := StateMode.None } := by
  obtain ⟨tree, sel, ids, mode⟩ := s
  constructor
  · intro h
    simp only at h
    subst h
    exact ⟨rfl, rfl⟩
  · intro origin h
    simp only at h
    subst h
    rfl

/-- Witness for C8 at the state built from sampleTree, whose mode is None:
toggling move mode twice returns the exact same state. -/
theorem move_mode_toggle_witness :
    (State.new sampleTree).move_mode
        = { State.new sampleTree with mode := StateMode.Move 1 } ∧
      (State.new sampleTree).move_mode.move_mode = State.new sampleTree :=
  (move_mode_toggle (State.new sampleTree)).1 rfl

/-! ## Claim C2: select_next -/

/-- C2 counterexample: in the state built from dupTree, selected = 5 occurs
in node_ids = [5, 3, 5] and is its last element, yet select_next changes
the selection (Iterator::position stops at the first occurrence, index 0,
so the cursor advances to 3). -/
theorem select_next_last_element_cex :
    (State.new dupTree).selected ∈ (State.new dupTree).node_ids ∧
      (State.new dupTree).node_ids.getLast? = some (State.new dupTree).selected ∧
      (State.new dupTree).select_next.selected ≠ (State.new dupTree).selected := by
  decide

/-- C2 (amended): when node_ids has no duplicate entries, select_next is a
no-op if selected is absent or sits at the last index, and otherwise moves
the selection to the element at the immediately following index, changing
nothing else. -/
theorem select_next_spec :
    (∀ s : State, s.selected ∉ s.node_ids → s.select_next = s) ∧
    ∀ (s : State), s.node_ids.Nodup → ∀ i (hi : i < s.node_ids.length),
      s.node_ids.get ⟨i, hi⟩ = s.selected →
      ((i + 1 = s.node_ids.length → s.select_next = s) ∧
       ∀ (hlt : i + 1 < s.node_ids.length),
         s.select_next = { s with selected := s.node_ids.get ⟨i + 1, hlt⟩ }) := by
  constructor
  · intro s habs
    have hnone : s.node_ids.findIdx? (fun id => id = s.selected) = none := by
      rw [List.findIdx?_eq_none_iff]
      intro x hx
      simp only [decide_eq_false_iff_not]
      exact fun hxe => habs (hxe ▸ hx)
    simp only [State.select_next, hnone]
  · intro s hnd i hi hsel
    have hsome : s.node_ids.findIdx? (fun id => id = s.selected) = some i := by
      apply findIdx?_eq_some_of _ _ i hi
      · simpa using hsel
      · intro j hj hji
        simp only [decide_eq_false_iff_not]
        intro hje
        have : s.node_ids.get ⟨j, hj⟩ = s.node_ids.get ⟨i, hi⟩ := by
          rw [hsel, hje]
        have := (hnd.getElem_inj_iff).1 this
        omega
    constructor
    · intro hlast
      have hget : s.node_ids.get? (i + 1) = none := by
        rw [List.get?_eq_getElem?, List.getElem?_eq_none]
        omega
      simp only [State.select_next, hsome, hget]
    · intro hlt
      have hget : s.node_ids.get? (i + 1) = some (s.node_ids.get ⟨i + 1, hlt⟩) := by
        rw [List.get?_eq_getElem?, List.getElem?_eq_getElem hlt]
        rfl
      simp only [State.select_next, hsome, hget]

/-- Witness for C2 at the state built from sampleTree: node_ids = [1,2,3,4]
has no duplicates, selected = 1 sits at index 0, and select_next moves the
selection to 2. -/
theorem select_next_spec_witness :
    (State.new sampleTree).select_next = { State.new sampleTree with selected := 2 } := by
  have h := (select_next_spec.2 (State.new sampleTree) (by decide) 0 (by decide)
    (by decide)).2 (by decide)
  exact h

/-! ## Claim C3: select_previous -/

/-- C3: select_previous is a no-op when selected is absent from node_ids;
when the LAST index carrying selected is j, it is a no-op if j = 0 and
otherwise moves the selection to the element at index j - 1, changing
nothing else. -/
theorem select_previous_spec :
    (∀ s : State, s.selected ∉ s.node_ids → s.select_previous = s) ∧
    ∀ (s : State) j (hj : j < s.node_ids.length),
      s.node_ids.get ⟨j, hj⟩ = s.selected →
      (∀ k (hk : k < s.node_ids.length), j < k → s.node_ids.get ⟨k, hk⟩ ≠ s.selected) →
      ((j = 0 → s.select_previous = s) ∧
       ∀ (hjm : j - 1 < s.node_ids.length), 0 < j →
         s.select_previous = { s with selected := s.node_ids.get ⟨j - 1, hjm⟩ }) := by
  constructor
  · intro s habs
    have hnone : s.node_ids.reverse.findIdx? (fun id => id = s.selected) = none := by
      rw [List.findIdx?_eq_none_iff]
      intro x hx
      simp only [decide_eq_false_iff_not]
      exact fun hxe => habs (hxe ▸ (List.mem_reverse.1 hx))
    simp only [State.select_previous, rposition, hnone]
  · intro s j hj hsel hlast
    have hsome : rposition s.node_ids (fun id => id = s.selected) = some j := by
      apply rposition_eq_some_of _ _ j hj
      · simpa using hsel
      · intro k hk hjk
        simp only [decide_eq_false_iff_not]
        exact hlast k hk hjk
    constructor
    · intro h0
      simp only [State.select_previous, hsome, h0, if_true]
    · intro hjm h0
      have hget : s.node_ids.get? (j - 1) = some (s.node_ids.get ⟨j - 1, hjm⟩) := by
        rw [List.get?_eq_getElem?, List.getElem?_eq_getElem hjm]
        rfl
      have hne : ¬ (j = 0) := by omega
      simp only [State.select_previous, hsome, if_neg hne, hget]

/-- Witness for C3 at the state built from sampleTree with selection moved
to 3: the last (only) index of 3 in [1,2,3,4] is 2, and select_previous
moves the selection to 2. -/
theorem select_previous_spec_witness :
    { State.new sampleTree with selected := 3 }.select_previous
      = { State.new sampleTree with selected := 2 } := by
  have h := (select_previous_spec.2 { State.new sampleTree with selected := 3 }
    2 (by decide) (by decide) (by decide)).2 (by decide) (by decide)
  exact h

/-! ## Claim C4: collect_ids -/

mutual

/-- Pre-order id list length equals the node count. -/
theorem collect_ids_length : ∀ n : Node, (collect_ids n).length = n.size
  | .mk i nm t l f u ns => by
    simp [collect_ids, Node.size, collect_ids_list_length ns, Nat.add_comm]

/-- Concatenated id list length over children equals the total node count. -/
theorem collect_ids_list_length :
    ∀ ns : List Node, (collect_ids_list ns).length = Node.sizeList ns
  | [] => by simp [collect_ids_list, Node.sizeList]
  | n :: ns => by
    simp [collect_ids_list, Node.sizeList, collect_ids_length n,
      collect_ids_list_length ns]

end

mutual

/-- Multiplicity of an id in the pre-order list equals its multiplicity in
the tree. -/
theorem collect_ids_count (i : Int) :
    ∀ n : Node, (collect_ids n).count i = n.idCount i
  | .mk j nm t l f u ns => by
    by_cases h : j = i
    · simp [collect_ids, Node.idCount, h, List.count_cons,
        collect_ids_list_count i ns, Nat.add_comm]
    · simp [collect_ids, Node.idCount, h, List.count_cons,
        collect_ids_list_count i ns]

/-- Multiplicity of an id over a child list. -/
theorem collect_ids_list_count (i : Int) :
    ∀ ns : List Node, (collect_ids_list ns).count i = Node.idCountList i ns
  | [] => by simp [collect_ids_list, Node.idCountList]
  | n :: ns => by
    simp [collect_ids_list, Node.idCountList, List.count_append,
      collect_ids_count i n, collect_ids_list_count i ns]

end

/-- C4: for a tree with pairwise distinct node ids, the id list built when
a snapshot is taken has one entry per node (length = node count), lists the
root id first, contains each id with exactly its multiplicity in the tree
(hence exactly the ids present in the tree), and has no duplicates. -/
theorem collect_ids_spec (t : Node) (hdist : t.distinctIds) :
    (collect_ids t).length = t.size ∧
    (collect_ids t).head? = some t.id ∧
    (∀ i : Int, (collect_ids t).count i = t.idCount i) ∧
    (collect_ids t).Nodup := by
  refine ⟨collect_ids_length t, ?_, fun i => collect_ids_count i t, ?_⟩
  · cases t with
    | mk i nm ty l f u ns => simp [collect_ids, Node.id]
  · rw [List.nodup_iff_count_le_one]
    intro a
    rw [collect_ids_count a t]
    exact hdist a

/-- Witness for C4 at sampleTree, whose four node ids 1, 2, 3, 4 are
pairwise distinct. -/
theorem collect_ids_spec_witness :
    (collect_ids sampleTree).length = sampleTree.size ∧
    (collect_ids sampleTree).head? = some sampleTree.id ∧
    (∀ i : Int, (collect_ids sampleTree).count i = sampleTree.idCount i) ∧
    (collect_ids sampleTree).Nodup := by
  apply collect_ids_spec sampleTree
  intro i
  simp only [sampleTree, leafNode, Node.idCount, Node.idCountList]
  split_ifs <;> omega

/-! ## Claim C1: tree flattening renderer -/

/-- Restyling never changes the row payload: the content of the produced
item is the UiNode built from the node with the context's full_entry. -/
theorem mkListItem_content (n : Node) (c : Context) :
    (mkListItem n c).content = UiNode.from n c.full_entry := by
  unfold mkListItem
  dsimp only
  split_ifs <;> rfl

mutual

/-- Row ids of the flattened tree are exactly the pre-order id list,
whatever the context: one row per node, parent first, children in order. -/
theorem node_into_ui_list_ids : ∀ (n : Node) (c : Context),
    (node_into_ui_list n c).map (fun r => r.content.con_id) = collect_ids n
  | .mk i nm t l f u ns, c => by
    simp [node_into_ui_list, collect_ids, mkListItem_content, UiNode.from,
      Node.id, children_into_ui_list_ids ns c]

/-- Row ids of a flattened child list are the concatenated pre-order ids. -/
theorem children_into_ui_list_ids : ∀ (ns : List Node) (c : Context),
    (children_into_ui_list ns c).map (fun r => r.content.con_id)
      = collect_ids_list ns
  | [], _ => by simp [children_into_ui_list, collect_ids_list]
  | [last], c => by
    simp [children_into_ui_list, collect_ids_list,
      node_into_ui_list_ids last c.to_leaf]
  | n :: next :: rest, c => by
    simp [children_into_ui_list, collect_ids_list,
      node_into_ui_list_ids n c.to_branch,
      children_into_ui_list_ids (next :: rest) c]

end

/-- The first row of a flattened subtree is the node's own row. -/
theorem node_into_ui_list_head (n : Node) (c : Context) :
    (node_into_ui_list n c).head? = some (mkListItem n c) := by
  cases n with
  | mk i nm t l f u ns => simp [node_into_ui_list]

/-- The first row of a flattened subtree carries the context's full_entry
as its indentation. -/
theorem node_into_ui_list_head_indent (n : Node) (c : Context) :
    (node_into_ui_list n c).head?.map (fun r => r.content.indentation)
      = some c.full_entry := by
  rw [node_into_ui_list_head]
  simp [mkListItem_content, UiNode.from]

/-- C1: the renderer yields one row per node in pre-order (its row ids are
the pre-order id list and its row count is the node count); the row
rendered for the tree root by Renderer::render has the empty indentation;
a context in Branch position prefixes its node's row with the ancestors'
indent followed by the branch glyph and passes the ancestors' indent
extended by the branch fill to the children, a context in Leaf (last-child)
position uses the leaf glyph and leaf fill; and a node with exactly three
children renders them with prefixes branch, branch, leaf in child order. -/
theorem renderer_spec (n : Node) (ctx : Context) :
    ((node_into_ui_list n ctx).map (fun r => r.content.con_id) = collect_ids n) ∧
    ((node_into_ui_list n ctx).length = n.size) ∧
    (∀ s : State,
      (render_rows s).head?.map (fun r => r.content.indentation) = some "") ∧
    (∀ ind sel,
      (Context.mk ind TreeLevel.Branch sel).full_entry = ind ++ "├──" ∧
      (Context.mk ind TreeLevel.Branch sel).descendant_indent = ind ++ "│  " ∧
      (Context.mk ind TreeLevel.Leaf sel).full_entry = ind ++ "└──" ∧
      (Context.mk ind TreeLevel.Leaf sel).descendant_indent = ind ++ "   ") ∧
    (∀ c1 c2 c3 i nm t l f u, n = Node.mk i nm t l f u [c1, c2, c3] →
      node_into_ui_list n ctx =
        mkListItem n ctx ::
          (node_into_ui_list c1 ctx.to_branch ++
            (node_into_ui_list c2 ctx.to_branch ++
              node_into_ui_list c3 ctx.to_leaf)) ∧
      (node_into_ui_list c1 ctx.to_branch).head?.map
          (fun r => r.content.indentation)
        = some (ctx.descendant_indent ++ "├──") ∧
      (node_into_ui_list c2 ctx.to_branch).head?.map
          (fun r => r.content.indentation)
        = some (ctx.descendant_indent ++ "├──") ∧
      (node_into_ui_list c3 ctx.to_leaf).head?.map
          (fun r => r.content.indentation)
        = some (ctx.descendant_indent ++ "└──")) := by
  refine ⟨node_into_ui_list_ids n ctx, ?_, ?_, ?_, ?_⟩
  · have h := congrArg List.length (node_into_ui_list_ids n ctx)
    rw [List.length_map] at h
    rw [h, collect_ids_length]
  · intro s
    rw [render_rows, node_into_ui_list_head_indent]
    rfl
  · intro ind sel
    exact ⟨rfl, rfl, rfl, rfl⟩
  · intro c1 c2 c3 i nm t l f u hn
    subst hn
    refine ⟨?_, ?_, ?_, ?_⟩
    · simp [node_into_ui_list, children_into_ui_list]
    · rw [node_into_ui_list_head_indent]; rfl
    · rw [node_into_ui_list_head_indent]; rfl
    · rw [node_into_ui_list_head_indent]; rfl

/-- Witness for C1 at sampleTree, whose root has the three children 2, 3, 4:
their rows carry the branch, branch and leaf prefixes in child order. -/
theorem renderer_spec_witness :
    (node_into_ui_list (leafNode 2) Context.default.to_branch).head?.map
        (fun r => r.content.indentation)
      = some (Context.default.descendant_indent ++ "├──") ∧
    (node_into_ui_list (leafNode 3) Context.default.to_branch).head?.map
        (fun r => r.content.indentation)
      = some (Context.default.descendant_indent ++ "├──") ∧
    (node_into_ui_list (leafNode 4) Context.default.to_leaf).head?.map
        (fun r => r.content.indentation)
      = some (Context.default.descendant_indent ++ "└──") := by
  have h := (renderer_spec sampleTree Context.default).2.2.2.2
    (leafNode 2) (leafNode 3) (leafNode 4) 1 Option.none NodeType.Root
    NodeLayout.SplitH false false rfl
  exact ⟨h.2.1, h.2.2.1, h.2.2.2⟩

/-! ## Claim C5: selection membership invariant -/

/-- C5 counterexample: starting from sampleTree and selecting the second
node (id 2, a member of node_ids), replacing the snapshot with a tree that
does not contain id 2 leaves selected = 2 stranded outside the new
node_ids — no fallback id is selected. -/
theorem update_tree_membership_cex :
    (State.new sampleTree).select_next.selected
        ∈ (State.new sampleTree).select_next.node_ids ∧
      ¬ ((State.new sampleTree).select_next.update_tree (leafNode 9)).selected
          ∈ ((State.new sampleTree).select_next.update_tree (leafNode 9)).node_ids := by
  decide

/-- C5 (amended): select_next, select_previous and move_mode preserve
membership of selected in node_ids, but update_tree does not: it leaves
selected untouched while replacing node_ids with the new tree's id list,
so the invariant is broken whenever the new tree lacks the previously
selected id. -/
theorem selection_membership_spec (s : State) (h : s.selected ∈ s.node_ids) :
    s.select_next.selected ∈ s.select_next.node_ids ∧
    s.select_previous.selected ∈ s.select_previous.node_ids ∧
    s.move_mode.selected ∈ s.move_mode.node_ids ∧
    ∀ t : Node, (s.update_tree t).selected = s.selected ∧
      (s.update_tree t).node_ids = collect_ids t := by
  refine ⟨?_, ?_, ?_, fun t => ⟨rfl, rfl⟩⟩
  · cases hf : s.node_ids.findIdx? (fun id => id = s.selected) with
    | none => simp only [State.select_next, hf]; exact h
    | some i =>
      cases hg : s.node_ids.get? (i + 1) with
      | none => simp only [State.select_next, hf, hg]; exact h
      | some v =>
        simp only [State.select_next, hf, hg]
        exact List.get?_mem hg
  · cases hf : rposition s.node_ids (fun id => id = s.selected) with
    | none => simp only [State.select_previous, hf]; exact h
    | some current =>
      by_cases h0 : current = 0
      · simp only [State.select_previous, hf, h0, if_true]
        exact h
      · cases hg : s.node_ids.get? (current - 1) with
        | none => simp only [State.select_previous, hf, if_neg h0, hg]; exact h
        | some v =>
          simp only [State.select_previous, hf, if_neg h0, hg]
          exact List.get?_mem hg
  · cases hm : s.mode with
    | None => simp only [State.move_mode, hm]; exact h
    | Move x => simp only [State.move_mode, hm]; exact h

/-- Witness for C5 at the state built from sampleTree, where selected = 1
is a member of node_ids = [1,2,3,4]. -/
theorem selection_membership_spec_witness :
    (State.new sampleTree).select_next.selected
        ∈ (State.new sampleTree).select_next.node_ids ∧
    (State.new sampleTree).select_previous.selected
        ∈ (State.new sampleTree).select_previous.node_ids ∧
    (State.new sampleTree).move_mode.selected
        ∈ (State.new sampleTree).move_mode.node_ids ∧
    ∀ t : Node, ((State.new sampleTree).update_tree t).selected
          = (State.new sampleTree).selected ∧
        ((State.new sampleTree).update_tree t).node_ids = collect_ids t :=
  selection_membership_spec (State.new sampleTree) (by decide)

/-! ## Claim C6: suppressible exit key -/

/-- C6: with the exit-key toggle in its default enabled state (flag false)
and the channel open, the keyboard producer delivers exactly the
successfully read keys up to and including the first exit key and then
stops delivering; once disable_exit_key has set the flag, it delivers
every successfully read key, the exit key included, and keeps going. -/
theorem exit_key_spec (config : Config) (inputs : List (Except String Key)) :
    ((input_producer true false config inputs).sent
        = takeThrough (fun k => k = config.exit_key)
            (inputs.filterMap Except.toOption)) ∧
    ∀ b : Bool, (input_producer true (disable_exit_key b) config inputs).sent
        = inputs.filterMap Except.toOption := by
  induction inputs with
  | nil => exact ⟨rfl, fun b => rfl⟩
  | cons e rest ih =>
    cases e with
    | error msg =>
      refine ⟨?_, fun b => ?_⟩
      · simpa [input_producer, Except.toOption] using ih.1
      · simpa [input_producer, Except.toOption] using ih.2 b
    | ok key =>
      refine ⟨?_, fun b => ?_⟩
      · by_cases hk : key = config.exit_key
        · simp [input_producer, Except.toOption, takeThrough, hk]
        · simp [input_producer, Except.toOption, takeThrough, hk, ih.1]
      · have h2 : (input_producer true true config rest).sent
            = rest.filterMap Except.toOption := ih.2 true
        simp [input_producer, Except.toOption, disable_exit_key, h2]

/-! ## Claim C9: producer read errors -/

/-- C9 counterexample: an I/O read error followed by an ordinary key leaves
the producer's eprintln log EMPTY — the error is skipped and the next key
is still delivered, but nothing is logged, contrary to the claim. -/
theorem io_error_not_logged_cex :
    (input_producer true false Config.default
        [Except.error "malformed key read", Except.ok (Key.Char 'x')]).log = [] ∧
      (input_producer true false Config.default
          [Except.error "malformed key read", Except.ok (Key.Char 'x')]).sent
        = [Key.Char 'x'] := by
  decide

/-- C9 (amended): read errors are invisible to the run: the producer
behaves exactly as it would on the error-free read sequence (the event is
silently skipped, the producer continues, nothing reaches the consumer),
and while the channel is open nothing is ever logged at all. -/
theorem io_error_skip_spec (channelOpen ignore_exit : Bool) (config : Config)
    (inputs : List (Except String Key)) :
    input_producer channelOpen ignore_exit config inputs
        = input_producer channelOpen ignore_exit config
            ((inputs.filterMap Except.toOption).map Except.ok) ∧
      (input_producer true ignore_exit config inputs).log = [] := by
  induction inputs with
  | nil => exact ⟨rfl, rfl⟩
  | cons e rest ih =>
    cases e with
    | error msg =>
      refine ⟨?_, ?_⟩
      · simpa [input_producer, Except.toOption] using ih.1
      · simpa [input_producer, Except.toOption] using ih.2
    | ok key =>
      refine ⟨?_, ?_⟩
      · cases channelOpen with
        | false => simp [input_producer, Except.toOption]
        | true =>
          by_cases hk : !ignore_exit && key = config.exit_key
          · simp [input_producer, Except.toOption, hk]
          · simp [input_producer, Except.toOption, hk, ih.1]
      · by_cases hk : !ignore_exit && key = config.exit_key
        · simp [input_producer, Except.toOption, hk]
        · simp [input_producer, Except.toOption, hk, ih.2]

/-! ## Claim C7: event aggregation channel -/

/-- An interleaving of two producer sequences is a permutation of their
concatenation. -/
theorem interleave_perm {as bs cs : List Event} (h : Interleave as bs cs) :
    cs.Perm (as ++ bs) := by
  induction h with
  | nil => exact List.Perm.refl []
  | left h ih => exact ih.cons _
  | right h ih => exact (ih.cons _).trans List.perm_middle.symm

/-- Sending a sequence enqueues it behind the existing queue. -/
theorem sendAll_queue (l q : List Event) :
    Channel.sendAll { queue := l } q = { queue := l ++ q } := by
  induction q generalizing l with
  | nil => simp [Channel.sendAll]
  | cons e rest ih => simp [Channel.sendAll, Channel.send, ih]

/-- Draining a channel by repeated next calls returns its queue in order. -/
theorem recvAll_queue (q : List Event) : Channel.recvAll { queue := q } = q := by
  induction q with
  | nil => simp [Channel.recvAll]
  | cons e rest ih => simp [Channel.recvAll, ih]

/-- C7: for any arrival order q that first-come-first-served queuing can
observe from a keyboard producer pushing the given keys, a tick producer
pushing m ticks and a notification producer pushing k notifications, the
channel delivers exactly q (nothing lost, nothing duplicated), so the
N+M+K delivered events are exactly the pushed multiset: the total count
matches and the count of every event kind matches. -/
theorem event_aggregator_spec (keys : List Key) (m k : Nat) (q : List Event)
    (h : Interleave3 (keys.map Event.Input) (tick_producer m) (i3_producer k) q) :
    Channel.recvAll (Channel.sendAll { queue := [] } q) = q ∧
    q.length = keys.length + m + k ∧
    ∀ e : Event, q.count e = (keys.map Event.Input).count e
        + (tick_producer m).count e + (i3_producer k).count e := by
  obtain ⟨ab, h1, h2⟩ := h
  have hperm : q.Perm ((keys.map Event.Input ++ tick_producer m) ++ i3_producer k) :=
    (interleave_perm h2).trans ((interleave_perm h1).append_right _)
  refine ⟨?_, ?_, ?_⟩
  · rw [sendAll_queue]
    simpa using recvAll_queue q
  · have hlen := hperm.length_eq
    simp [tick_producer, i3_producer] at hlen
    omega
  · intro e
    have hc := hperm.count_eq e
    simpa [List.count_append, Nat.add_assoc] using hc

/-- Witness for C7: one key, one tick, one notification arriving in the
order tick, key, notification. -/
theorem event_aggregator_spec_witness :
    Channel.recvAll (Channel.sendAll { queue := [] }
        [Event.Tick, Event.Input (Key.Char 'a'), Event.I3])
      = [Event.Tick, Event.Input (Key.Char 'a'), Event.I3] ∧
    ([Event.Tick, Event.Input (Key.Char 'a'), Event.I3] : List Event).length
      = [Key.Char 'a'].length + 1 + 1 ∧
    ∀ e : Event,
      ([Event.Tick, Event.Input (Key.Char 'a'), Event.I3] : List Event).count e
        = ([Key.Char 'a'].map Event.Input).count e + (tick_producer 1).count e
            + (i3_producer 1).count e :=
  event_aggregator_spec [Key.Char 'a'] 1 1
    [Event.Tick, Event.Input (Key.Char 'a'), Event.I3]
    ⟨[Event.Tick, Event.Input (Key.Char 'a')],
      Interleave.right (Interleave.left Interleave.nil),
      Interleave.left (Interleave.left (Interleave.right Interleave.nil))⟩

/-! ## Claim C10: move-origin invariant of the control loop -/

/-- Unfolding of move_mode on a Browsing-mode state. -/
theorem move_mode_of_none {s : State} (h : s.mode = StateMode.None) :
    s.move_mode = { s with mode := StateMode.Move s.selected } := by
  simp only [State.move_mode, h]

/-- Unfolding of move_mode on a Move-mode state. -/
theorem move_mode_of_move {s : State} {x : Int} (h : s.mode = StateMode.Move x) :
    s.move_mode = { s with mode := StateMode.None } := by
  simp only [State.move_mode, h]

/-- Selection movement never changes the interaction mode. -/
theorem select_next_mode (s : State) : s.select_next.mode = s.mode := by
  cases hf : s.node_ids.findIdx? (fun id => id = s.selected) with
  | none => simp only [State.select_next, hf]
  | some i =>
    cases hg : s.node_ids.get? (i + 1) with
    | none => simp only [State.select_next, hf, hg]
    | some v => simp only [State.select_next, hf, hg]

/-- Selection movement never changes the interaction mode. -/
theorem select_previous_mode (s : State) : s.select_previous.mode = s.mode := by
  cases hf : rposition s.node_ids (fun id => id = s.selected) with
  | none => simp only [State.select_previous, hf]
  | some current =>
    by_cases h0 : current = 0
    · simp only [State.select_previous, hf, h0, if_true]
    · cases hg : s.node_ids.get? (current - 1) with
      | none => simp only [State.select_previous, hf, if_neg h0, hg]
      | some v => simp only [State.select_previous, hf, if_neg h0, hg]

/-- One step of the control loop preserves the move-origin invariant. -/
theorem dispatch_preserves_modeInv {s s1 : State} {e : LoopEvent}
    {cmds : List String} (hinv : modeInv s)
    (hd : dispatch s e = some (s1, cmds)) : modeInv s1 := by
  cases e with
  | Tick =>
    simp only [dispatch] at hd
    cases hd
    exact hinv
  | I3 t =>
    simp only [dispatch] at hd
    cases hd
    intro o ho
    exact hinv o ho
  | Input key =>
    cases hm : s.mode with
    | None =>
      simp only [dispatch, hm] at hd
      unfold dispatchInputNone at hd
      split_ifs at hd
      · cases hd
        intro o ho
        rw [select_next_mode, hm] at ho
        exact StateMode.noConfusion ho
      · cases hd
        intro o ho
        rw [select_previous_mode, hm] at ho
        exact StateMode.noConfusion ho
      · cases hd
        intro o ho
        rw [move_mode_of_none hm] at ho
        simp only at ho
        cases ho
        rw [move_mode_of_none hm]
      · cases hd
        exact hinv
      · cases hd
        exact hinv
    | Move x =>
      simp only [dispatch, hm] at hd
      unfold dispatchInputMove at hd
      split_ifs at hd
      · cases hd
        intro o ho
        rw [move_mode_of_move hm] at ho
        exact StateMode.noConfusion ho
      · cases hd
        exact hinv
      · cases hd
        exact hinv
      · cases hd
        exact hinv
      · cases hd
        exact hinv
      · cases hd
        exact hinv
      · cases hd
        exact hinv

/-- The control loop preserves the move-origin invariant from any state. -/
theorem run_preserves_modeInv (s : State) (evts : List LoopEvent)
    (hinv : modeInv s) : modeInv (run s evts).1 := by
  induction evts generalizing s with
  | nil => exact hinv
  | cons e rest ih =>
    cases hd : dispatch s e with
    | none => simp only [run, hd]; exact hinv
    | some pr =>
      cases pr with
      | mk s1 cmds =>
        simp only [run, hd]
        exact ih s1 (dispatch_preserves_modeInv hinv hd)

/-- C10: in every state the control loop reaches from the initial state,
a recorded move origin equals the current selection, so the move command
issued in Move mode is scoped by con_id to the container that was selected
when move mode was entered. -/
theorem move_origin_spec (t : Node) (evts : List LoopEvent) (o : Int)
    (h : (run (State.new t) evts).1.mode = StateMode.Move o) :
    o = (run (State.new t) evts).1.selected ∧
    ∀ direction, (run (State.new t) evts).1.move_container direction
      = "[con_id=\"" ++ toString o ++ "\"] move " ++ direction := by
  have hinv : modeInv (run (State.new t) evts).1 := by
    apply run_preserves_modeInv
    intro o ho
    simp only [State.new] at ho
    exact StateMode.noConfusion ho
  have ho := hinv o h
  refine ⟨ho, fun direction => ?_⟩
  rw [ho]
  rfl

/-- Witness for C10: pressing m from the initial state built from
sampleTree enters Move mode with origin 1 = the selected root id, and the
issued move command is scoped to con_id 1. -/
theorem move_origin_spec_witness :
    1 = (run (State.new sampleTree) [LoopEvent.Input (Key.Char 'm')]).1.selected ∧
    (run (State.new sampleTree) [LoopEvent.Input (Key.Char 'm')]).1.move_container "up"
      = "[con_id=\"" ++ toString (1 : Int) ++ "\"] move " ++ "up" := by
  have h := move_origin_spec sampleTree [LoopEvent.Input (Key.Char 'm')] 1 rfl
  exact ⟨h.1, h.2 "up"⟩

end I3TM
